import Mathlib

set_option maxRecDepth 10000

/-!
Verification of the infrared-analyzer pulse protocol engine.

This file gives a shallow embedding of the repository's Python sources
(`protocol.py`, `tag_protocol.py`, `test_protocol.py`, `infrared.py`) and
proves properties of the embedded definitions.

Modelling conventions:
* Python `int` is modelled by `Int` (or `Nat` where the source value is a
  byte or bit count that is provably nonnegative).
* Pulse durations are `Int` (Python ints; hardware delivers nonnegative
  values but the decoder accepts any int).
* Python `float` values appearing here are exactly representable as
  rationals except the literal `1.3`; we model floats by `ℚ` with `1.3`
  as `13/10`.  Every property proved below about signal strength is robust
  to the `2^-52`-scale rounding of the float literal.
* The error threshold `250.0` of the CRC test protocol (`IR_UNIT / 2`) is
  modelled as the integer `250`: all comparisons against it in the source
  compare an integer margin with `250.0`, which is exact.
* `bytearray` is modelled as `List Nat` (entries are < 256 in every
  reachable state; this is proved as an invariant rather than imposed by
  the type).
* A method that mutates `self` becomes a function `State → ... → State`
  (returning a pair when the Python method also returns a value).
-/

namespace Infrared

/-- State of `protocol.InfraredDecoder`: the generic decoder engine.
Field names follow the Python attributes. -/
structure InfraredDecoder where
  errorThreshold : Int
  decoderState : Int
  receivedData : List Nat
  receivedBitIndex : Int
  receivedByte : Nat
  maxErrorMargin : Int
  lastErrorMargin : Int
  deriving Repr, DecidableEq

/-- `InfraredDecoder.__init__(error_threshold)`.  Note that the source
initializes `_received_bit_index` to `0` (it does not call
`_reset_bit_writer`, which would set it to 7). -/
def InfraredDecoder.init (errorThreshold : Int) : InfraredDecoder :=
  ⟨errorThreshold, 0, [], 0, 0, 0, 0⟩

/-- `InfraredDecoder._reset_bit_writer`. -/
def InfraredDecoder.resetBitWriter (st : InfraredDecoder) : InfraredDecoder :=
  { st with receivedByte := 0, receivedBitIndex := 7 }

/-- `InfraredDecoder.reset(error_margin)`. -/
def InfraredDecoder.reset (st : InfraredDecoder) (errorMargin : Int) : InfraredDecoder :=
  let st := { st with decoderState := 0, receivedData := [] }
  let st := st.resetBitWriter
  { st with maxErrorMargin := 0, lastErrorMargin := errorMargin }

/-- `InfraredDecoder.check_pulse(received, expected)`: returns the match
result together with the updated state (`_max_error_margin` is raised to
the margin on a match). -/
def InfraredDecoder.checkPulse (st : InfraredDecoder) (received expected : Int) :
    Bool × InfraredDecoder :=
  let margin := |received - expected|
  let mtch := margin < st.errorThreshold
  if mtch then
    (true, { st with maxErrorMargin := max st.maxErrorMargin margin })
  else
    (false, st)

/-- `InfraredDecoder.write_bit(bit)`.  The shift `1 << index` is modelled
with `Int.toNat`; in the source the index is never negative when
`write_bit` is entered (it is 0 or 7 initially and is reset to 7 whenever
it would drop below 0). -/
def InfraredDecoder.writeBit (st : InfraredDecoder) (bit : Nat) : InfraredDecoder :=
  let st :=
    if bit = 1 then
      { st with receivedByte := st.receivedByte ||| (1 <<< st.receivedBitIndex.toNat) }
    else st
  let st := { st with receivedBitIndex := st.receivedBitIndex - 1 }
  if st.receivedBitIndex < 0 then
    let st := { st with receivedData := st.receivedData ++ [st.receivedByte] }
    st.resetBitWriter
  else st

/-- `InfraredDecoder.last_signal_strength`, with floats modelled by `ℚ`.
The source computes `min(1, 1.3 - last_error_margin / error_threshold)`
when the last margin is nonzero; there is no lower clamp. -/
def InfraredDecoder.lastSignalStrength (st : InfraredDecoder) : ℚ :=
  if st.lastErrorMargin = 0 then 1
  else
    let errorRatio : ℚ := (st.lastErrorMargin : ℚ) / (st.errorThreshold : ℚ)
    min 1 (13 / 10 - errorRatio)

end Infrared

namespace Infrared

/-! ### Tag protocol (`tag_protocol.py`) -/

def TAG_ERROR_MARGIN : Int := 500
def TAG_PREAMBLE : List Int := [3000, 6000, 3000]
def TAG_MARK : Int := 2000
def TAG_SPACE_ZERO : Int := 1000
def TAG_SPACE_ONE : Int := 2000
def TAG_DATA_BITS : Nat := 7
/-- `len(TAG_PREAMBLE) + TAG_DATA_BITS * 2 = 17`. -/
def TAG_TOTAL_PULSES : Int := 3 + 7 * 2

/-- `tag_protocol.TagData`: team, player, damage as Python ints. -/
structure TagData where
  team : Int
  player : Int
  damage : Int
  deriving Repr, DecidableEq

/-- `tag_protocol.decode_tag_data(data)`; a raised `ValueError` is
modelled as `Except.error`. -/
def decodeTagData (data : List Nat) : Except String TagData :=
  match data with
  | [] => .error "Expecting 1 byte of tag data."
  | byte :: _ =>
    .ok ⟨((byte >>> 5) &&& 0b11 : Nat),
         1 + ((byte >>> 2) &&& 0b111 : Nat),
         1 + ((byte &&& 0b11 : Nat))⟩

/-- `tag_protocol.encode_tag_data(tag_data)`; a raised `ValueError` is
modelled as `Except.error`.  The packing is performed on `toNat` images,
faithful because the range checks have already ensured nonnegativity. -/
def encodeTagData (t : TagData) : Except String (List Nat) :=
  if t.team < 0 ∨ 3 < t.team then .error "Team must be between 0 and 3."
  else if t.player < 1 ∨ 8 < t.player then .error "Player must be between 1 and 8."
  else if t.damage < 1 ∨ 4 < t.damage then .error "Damage must be between 1 and 4."
  else
    .ok [((t.team.toNat &&& 0b11) <<< 5) |||
         (((t.player - 1).toNat &&& 0b111) <<< 2) |||
         ((t.damage - 1).toNat &&& 0b11)]

/-- `TagInfraredDecoder.__init__`: the generic engine initialized with the
tag error margin. -/
def tagFresh : InfraredDecoder := InfraredDecoder.init TAG_ERROR_MARGIN

/-- `TagInfraredDecoder.decode(pulse)`: one step of the tag state machine,
returning the optional completed packet and the new state.  The preamble
lookup `TAG_PREAMBLE[state]` is modelled with `getD` on `toNat`; the state
is in `[0, 3)` whenever that branch is taken in a reachable state.  At the
completion state the source reads `received_data[0]`, modelled by
`headD 0`; the list is nonempty there in every reachable state (proved
below as part of the decoder invariant). -/
def tagDecode (st : InfraredDecoder) (pulse : Int) :
    Option (List Nat) × InfraredDecoder :=
  if st.decoderState < 3 then
    let expectedPulse := TAG_PREAMBLE.getD st.decoderState.toNat 0
    let c := st.checkPulse pulse expectedPulse
    if c.1 then
      (none, { c.2 with decoderState := c.2.decoderState + 1 })
    else
      (none, c.2.reset TAG_ERROR_MARGIN)
  else if st.decoderState < TAG_TOTAL_PULSES then
    let bitIndex := st.decoderState - 3
    if bitIndex % 2 = 0 then
      let c := st.checkPulse pulse TAG_MARK
      if ¬c.1 then
        (none, c.2.reset TAG_ERROR_MARGIN)
      else
        (none, { c.2 with decoderState := c.2.decoderState + 1 })
    else
      let c1 := st.checkPulse pulse TAG_SPACE_ONE
      if c1.1 then
        let st := c1.2.writeBit 1
        (none, { st with decoderState := st.decoderState + 1 })
      else
        let c0 := c1.2.checkPulse pulse TAG_SPACE_ZERO
        if c0.1 then
          let st := c0.2.writeBit 0
          (none, { st with decoderState := st.decoderState + 1 })
        else
          (none, c0.2.reset TAG_ERROR_MARGIN)
  else if st.decoderState = TAG_TOTAL_PULSES then
    let st := st.writeBit 0
    let tagData := st.receivedData.headD 0 >>> 1
    (some [tagData], st.reset st.maxErrorMargin)
  else
    (none, st.reset TAG_ERROR_MARGIN)

/-- Inner loop of `TagInfraredEncoder.encode`: emit `n` mark/space pairs
for the top bits of `tagData`, shifting left each round. -/
def tagEncodeBits : Nat → Nat → List Int
  | 0, _ => []
  | n + 1, tagData =>
    TAG_MARK ::
      (if tagData &&& 0x80 > 0 then TAG_SPACE_ONE else TAG_SPACE_ZERO) ::
        tagEncodeBits n (tagData <<< 1)

/-- `TagInfraredEncoder.encode(data)` for the single byte `data[0]`:
preamble followed by the 7 data-bit pairs of `data[0] << 1`. -/
def tagEncode (byte : Nat) : List Int :=
  TAG_PREAMBLE ++ tagEncodeBits TAG_DATA_BITS (byte <<< 1)

/-- Feed a list of pulses one at a time, keeping only the final state. -/
def feedTag (st : InfraredDecoder) : List Int → InfraredDecoder
  | [] => st
  | p :: ps => feedTag (tagDecode st p).2 ps

/-- Feed a list of pulses one at a time, collecting each call's return
value. -/
def tagOutputs (st : InfraredDecoder) : List Int → List (Option (List Nat))
  | [] => []
  | p :: ps => (tagDecode st p).1 :: tagOutputs (tagDecode st p).2 ps

/-- Invariant of the tag decoder state, satisfied by the fresh decoder and
preserved by `tagDecode`.  The last clause records how many bits of the
current byte have been consumed relative to the state counter; at the
completion state it forces the bit writer to be about to flush, so
`received_data[0]` is well defined. -/
def TagInv (st : InfraredDecoder) : Prop :=
  st.receivedByte < 256 ∧
  0 ≤ st.receivedBitIndex ∧ st.receivedBitIndex ≤ 7 ∧
  (∀ b ∈ st.receivedData, b < 256) ∧
  0 ≤ st.decoderState ∧ st.decoderState ≤ 17 ∧
  (st.decoderState < 3 → st.receivedBitIndex = 7 ∨ st.receivedBitIndex = 0) ∧
  (3 ≤ st.decoderState →
    st.receivedData ≠ [] ∨ st.receivedBitIndex = 0 ∨
      7 - st.receivedBitIndex = (st.decoderState - 3) / 2)

/-! ### CRC test protocol (`test_protocol.py`) -/

def IR_UNIT : Int := 500
/-- `IR_UNIT / 2` is the Python float `250.0`; every comparison in the
source pits an integer margin against it, so the integer `250` is an
exact model. -/
def IR_ERROR_MARGIN : Int := 250
def IR_HEADER_MARK : Int := 4000
def IR_HEADER_SPACE : Int := 3000
def IR_ZERO : Int := 500
def IR_ONE : Int := 1500
def IR_LEAD_OUT : Int := 5000
def IR_CRC_GENERATOR : Nat := 0x1D

/-- One iteration of the inner loop of `_calculate_crc`. -/
def crcStep (crc : Nat) : Nat :=
  if crc &&& 0x80 ≠ 0 then ((crc <<< 1) &&& 0xFF) ^^^ IR_CRC_GENERATOR
  else (crc <<< 1) &&& 0xFF

/-- `n` iterations of the inner loop of `_calculate_crc`. -/
def crcRounds : Nat → Nat → Nat
  | 0, crc => crc
  | n + 1, crc => crcRounds n (crcStep crc)

/-- `test_protocol._calculate_crc(data)`: CRC-8 with generator `0x1D`,
byte-wise left-shift-and-xor-on-overflow. -/
def calculateCrc (data : List Nat) : Nat :=
  data.foldl (fun crc dataByte => crcRounds 8 (crc ^^^ dataByte)) 0

/-- `MWDecoder.__init__`: the generic engine with the CRC protocol's
error margin. -/
def mwFresh : InfraredDecoder := InfraredDecoder.init IR_ERROR_MARGIN

/-- `MWDecoder.decode(pulse)`.  The chain of `check_pulse` calls is
sequential in the source; each call threads the (possibly updated) state
into the next.  `data[-1]` is modelled by `getLastD 0` and
`data[:len(data)-1]` by `dropLast`; the length guard makes both exact.
States other than 0, 1, 2 fall off the end of the `elif` chain and return
`None` without touching the state. -/
def mwDecode (st : InfraredDecoder) (pulse : Int) :
    Option (List Nat) × InfraredDecoder :=
  if st.decoderState = 0 then
    let c := st.checkPulse pulse IR_HEADER_MARK
    if c.1 then (none, { c.2 with decoderState := 1 }) else (none, c.2)
  else if st.decoderState = 1 then
    let c := st.checkPulse pulse IR_HEADER_SPACE
    if c.1 then (none, { c.2 with decoderState := 2 })
    else (none, c.2.reset IR_ERROR_MARGIN)
  else if st.decoderState = 2 then
    let c1 := st.checkPulse pulse IR_ONE
    if c1.1 then (none, c1.2.writeBit 1)
    else
      let c0 := c1.2.checkPulse pulse IR_ZERO
      if c0.1 then (none, c0.2.writeBit 0)
      else
        let cL := c0.2.checkPulse pulse IR_LEAD_OUT
        if cL.1 then
          let data := cL.2.receivedData
          if data.length < 2 then
            (none, cL.2.reset IR_ERROR_MARGIN)
          else
            let receivedCrc := data.getLastD 0
            let dataWithoutCrc := data.dropLast
            let calculatedCrc := calculateCrc dataWithoutCrc
            let st := cL.2.reset cL.2.maxErrorMargin
            if receivedCrc = calculatedCrc then (some dataWithoutCrc, st)
            else (none, st)
        else (none, cL.2.reset IR_ERROR_MARGIN)
  else (none, st)

/-! ### Multi-sensor receiver (`infrared.py`, `InfraredMultiReceiver`)

Python dicts preserve insertion order, so each of the receiver's dicts is
modelled as an association list in that order.  `decoder_factory` and the
per-protocol decoder are abstracted as a record of operations over an
arbitrary decoder-state type. -/

/-- The decoder interface the multi-receiver consumes: `decode`, `reset`,
and the two quality accessors. -/
structure DecoderOps (σ : Type) where
  decode : σ → Int → Option (List Nat) × σ
  reset : σ → Int → σ
  lastErrorMargin : σ → Int
  lastSignalStrength : σ → ℚ

/-- The tag protocol decoder packaged as `DecoderOps`. -/
def tagOps : DecoderOps InfraredDecoder :=
  ⟨tagDecode, InfraredDecoder.reset, InfraredDecoder.lastErrorMargin,
   InfraredDecoder.lastSignalStrength⟩

/-- State of `InfraredMultiReceiver`: per-sensor (name, queued pulses,
decoder state), plus the two snapshot dicts. -/
structure MultiReceiver (σ : Type) where
  sensors : List (String × List Int × σ)
  lastErrorMargins : List (String × Int)
  lastSignalStrengths : List (String × ℚ)

/-- One pulse-reading round: pop the head pulse of every sensor that has
one (`read_pulse`), building the `pulses` dict in sensor order. -/
def readRound {σ : Type} :
    List (String × List Int × σ) → List (String × Int) × List (String × List Int × σ)
  | [] => ([], [])
  | (n, q, d) :: rest =>
    let r := readRound rest
    match q with
    | [] => (r.1, (n, ([] : List Int), d) :: r.2)
    | p :: q' => ((n, p) :: r.1, (n, q', d) :: r.2)

/-- `self._decoders[name].decode(pulse)`: decode with the named sensor's
decoder, updating it in place. -/
def updateSensor {σ : Type} (ops : DecoderOps σ) :
    List (String × List Int × σ) → String → Int →
      Option (List Nat) × List (String × List Int × σ)
  | [], _, _ => (none, [])
  | (n, q, d) :: rest, name, pulse =>
    if n = name then
      let r := ops.decode d pulse
      (r.1, (n, q, r.2) :: rest)
    else
      let r := updateSensor ops rest name pulse
      (r.1, (n, q, d) :: r.2)

/-- The `datas` loop of `receive`: decode each pulled pulse with its
sensor's decoder, collecting completed packets in pulse order. -/
def decodeRound {σ : Type} (ops : DecoderOps σ) :
    List (String × Int) → List (String × List Int × σ) →
      List (String × List Nat) × List (String × List Int × σ)
  | [], sensors => ([], sensors)
  | (name, pulse) :: ps, sensors =>
    let u := updateSensor ops sensors name pulse
    let r := decodeRound ops ps u.2
    match u.1 with
    | some d => ((name, d) :: r.1, r.2)
    | none => r

/-- The stats loop: record `last_error_margin` for exactly the sensors
whose decode completed, in decoder (= sensor) order. -/
def snapshotMargins {σ : Type} (ops : DecoderOps σ)
    (sensors : List (String × List Int × σ)) (datas : List (String × List Nat)) :
    List (String × Int) :=
  sensors.filterMap fun s =>
    if (datas.lookup s.1).isSome then some (s.1, ops.lastErrorMargin s.2.2) else none

/-- The stats loop, signal-strength half. -/
def snapshotStrengths {σ : Type} (ops : DecoderOps σ)
    (sensors : List (String × List Int × σ)) (datas : List (String × List Nat)) :
    List (String × ℚ) :=
  sensors.filterMap fun s =>
    if (datas.lookup s.1).isSome then some (s.1, ops.lastSignalStrength s.2.2) else none

/-- The minimum-error-margin scan of `receive` and `last_best_receiver`:
`min_error_margin` starts at `float("inf")` (modelled by `none`) and an
entry wins only with a strictly lower margin, so the first minimum is
kept. -/
def scanStep (best : Option (String × Int)) (nm : String × Int) :
    Option (String × Int) :=
  match best with
  | none => some nm
  | some b => if nm.2 < b.2 then some nm else best

def scanBest (l : List (String × Int)) : Option (String × Int) :=
  l.foldl scanStep none

/-- The reset loop of `receive`: every decoder is reset with its own
`last_error_margin`. -/
def resetAllDecoders {σ : Type} (ops : DecoderOps σ)
    (sensors : List (String × List Int × σ)) : List (String × List Int × σ) :=
  sensors.map fun s => (s.1, s.2.1, ops.reset s.2.2 (ops.lastErrorMargin s.2.2))

/-- The `while data_available` loop of `InfraredMultiReceiver.receive`,
with explicit fuel.  Each continuing iteration consumes at least one
queued pulse, so fuel exceeding the total number of queued pulses makes
the fuel bound unreachable (`multiReceive` below supplies such fuel). -/
def multiReceiveAux {σ : Type} (ops : DecoderOps σ) :
    Nat → MultiReceiver σ → Option (List Nat) × MultiReceiver σ
  | 0, r => (none, r)
  | fuel + 1, r =>
    let rd := readRound r.sensors
    if rd.1.isEmpty then (none, { r with sensors := rd.2 })
    else
      let dec := decodeRound ops rd.1 rd.2
      if dec.1.isEmpty then
        multiReceiveAux ops fuel { r with sensors := dec.2 }
      else
        let margins := snapshotMargins ops dec.2 dec.1
        let strengths := snapshotStrengths ops dec.2 dec.1
        let result :=
          match scanBest margins with
          | some b => dec.1.lookup b.1
          | none => none
        (result, ⟨resetAllDecoders ops dec.2, margins, strengths⟩)

/-- Total number of queued pulses across all sensors. -/
def totalQueued {σ : Type} (r : MultiReceiver σ) : Nat :=
  (r.sensors.map fun s => s.2.1.length).sum

/-- `InfraredMultiReceiver.receive`. -/
def multiReceive {σ : Type} (ops : DecoderOps σ) (r : MultiReceiver σ) :
    Option (List Nat) × MultiReceiver σ :=
  multiReceiveAux ops (totalQueued r + 1) r

/-- `InfraredMultiReceiver.last_best_receiver`: the same strict-minimum
scan over the last snapshot. -/
def lastBestReceiver {σ : Type} (r : MultiReceiver σ) : Option String :=
  (scanBest r.lastErrorMargins).map Prod.fst

/-- A tag-protocol packet as seen by a sensor: the encoder's 17 pulses
with `jitter` added to the first preamble mark. -/
def packetPulses (jitter : Int) (byte : Nat) : List Int :=
  (3000 + jitter) :: [6000, 3000] ++ tagEncodeBits TAG_DATA_BITS (byte <<< 1)

/-- A packet's pulses followed by one further pulse (the tag decoder
emits the packet on the pulse after the last encoded one). -/
def packetWithJitter (jitter : Int) (byte : Nat) : List Int :=
  packetPulses jitter byte ++ [9999]

/-- Two-sensor demo receiver: sensor `A` sees two packets with 10 µs of
jitter, sensor `B` the same rounds with 40 µs; the second packets carry
distinct bytes. -/
def demoReceiver : MultiReceiver InfraredDecoder :=
  ⟨[("A", packetWithJitter 10 0 ++ packetWithJitter 10 0x52, tagFresh),
    ("B", packetWithJitter 40 0 ++ packetWithJitter 40 0x13, tagFresh)], [], []⟩

/-- A two-sensor receiver one pulse before completion: each decoder has
already consumed a full packet's 17 pulses (with 10 µs and 40 µs of
jitter respectively), and each queue holds the one further pulse that
completes the packet. -/
def demoPoised : MultiReceiver InfraredDecoder :=
  ⟨[("A", [9999], feedTag tagFresh (packetPulses 10 0)),
    ("B", [9999], feedTag tagFresh (packetPulses 40 0))], [], []⟩

end Infrared

namespace Infrared

/-! ### Basic lemmas about the decoder engine -/

theorem checkPulse_fst (st : InfraredDecoder) (r e : Int) :
    (st.checkPulse r e).1 = decide (|r - e| < st.errorThreshold) := by
  unfold InfraredDecoder.checkPulse
  dsimp only
  split_ifs with h <;> simp [h]

theorem checkPulse_snd_of_true (st : InfraredDecoder) (r e : Int)
    (h : (st.checkPulse r e).1 = true) :
    (st.checkPulse r e).2 = { st with maxErrorMargin := max st.maxErrorMargin |r - e| } := by
  rw [checkPulse_fst] at h
  have hlt : |r - e| < st.errorThreshold := by simpa using h
  unfold InfraredDecoder.checkPulse
  dsimp only
  rw [if_pos hlt]

theorem checkPulse_snd_of_false (st : InfraredDecoder) (r e : Int)
    (h : (st.checkPulse r e).1 = false) :
    (st.checkPulse r e).2 = st := by
  rw [checkPulse_fst] at h
  have hlt : ¬|r - e| < st.errorThreshold := by simpa using h
  unfold InfraredDecoder.checkPulse
  dsimp only
  rw [if_neg hlt]

@[simp] theorem checkPulse_errorThreshold (st : InfraredDecoder) (r e : Int) :
    (st.checkPulse r e).2.errorThreshold = st.errorThreshold := by
  unfold InfraredDecoder.checkPulse; dsimp only; split_ifs <;> rfl

@[simp] theorem checkPulse_decoderState (st : InfraredDecoder) (r e : Int) :
    (st.checkPulse r e).2.decoderState = st.decoderState := by
  unfold InfraredDecoder.checkPulse; dsimp only; split_ifs <;> rfl

@[simp] theorem checkPulse_receivedData (st : InfraredDecoder) (r e : Int) :
    (st.checkPulse r e).2.receivedData = st.receivedData := by
  unfold InfraredDecoder.checkPulse; dsimp only; split_ifs <;> rfl

@[simp] theorem checkPulse_receivedBitIndex (st : InfraredDecoder) (r e : Int) :
    (st.checkPulse r e).2.receivedBitIndex = st.receivedBitIndex := by
  unfold InfraredDecoder.checkPulse; dsimp only; split_ifs <;> rfl

@[simp] theorem checkPulse_receivedByte (st : InfraredDecoder) (r e : Int) :
    (st.checkPulse r e).2.receivedByte = st.receivedByte := by
  unfold InfraredDecoder.checkPulse; dsimp only; split_ifs <;> rfl

@[simp] theorem checkPulse_lastErrorMargin (st : InfraredDecoder) (r e : Int) :
    (st.checkPulse r e).2.lastErrorMargin = st.lastErrorMargin := by
  unfold InfraredDecoder.checkPulse; dsimp only; split_ifs <;> rfl

/-! ### C3: pulse tolerance -/

/-- C3: `check_pulse` returns true iff `|observed - expected| <
errorThreshold`; on a true result the state changes only by raising
`maxErrorMargin` to the margin, on a false result it is unchanged; with a
positive threshold, a deviation of exactly `threshold - 1` (either side)
matches and a deviation of exactly `threshold` does not. -/
theorem checkPulse_tolerance (st : InfraredDecoder) (received expected : Int) :
    ((st.checkPulse received expected).1 = true ↔
      |received - expected| < st.errorThreshold) ∧
    ((st.checkPulse received expected).1 = true →
      (st.checkPulse received expected).2 =
        { st with maxErrorMargin := max st.maxErrorMargin |received - expected| }) ∧
    ((st.checkPulse received expected).1 = false →
      (st.checkPulse received expected).2 = st) ∧
    (1 ≤ st.errorThreshold →
      (st.checkPulse (expected + (st.errorThreshold - 1)) expected).1 = true ∧
      (st.checkPulse (expected - (st.errorThreshold - 1)) expected).1 = true ∧
      (st.checkPulse (expected + st.errorThreshold) expected).1 = false ∧
      (st.checkPulse (expected - st.errorThreshold) expected).1 = false) := by
  refine ⟨?_, checkPulse_snd_of_true st received expected,
    checkPulse_snd_of_false st received expected, ?_⟩
  · rw [checkPulse_fst]; simp
  · intro hT
    have k1 : |expected + (st.errorThreshold - 1) - expected| = st.errorThreshold - 1 := by
      rw [show expected + (st.errorThreshold - 1) - expected = st.errorThreshold - 1 by ring,
        abs_of_nonneg (by omega)]
    have k2 : |expected - (st.errorThreshold - 1) - expected| = st.errorThreshold - 1 := by
      rw [show expected - (st.errorThreshold - 1) - expected = -(st.errorThreshold - 1) by ring,
        abs_neg, abs_of_nonneg (by omega)]
    have k3 : |expected + st.errorThreshold - expected| = st.errorThreshold := by
      rw [show expected + st.errorThreshold - expected = st.errorThreshold by ring,
        abs_of_nonneg (by omega)]
    have k4 : |expected - st.errorThreshold - expected| = st.errorThreshold := by
      rw [show expected - st.errorThreshold - expected = -st.errorThreshold by ring,
        abs_neg, abs_of_nonneg (by omega)]
    refine ⟨?_, ?_, ?_, ?_⟩
    · rw [checkPulse_fst, k1]; exact decide_eq_true (by omega)
    · rw [checkPulse_fst, k2]; exact decide_eq_true (by omega)
    · rw [checkPulse_fst, k3]; exact decide_eq_false (by omega)
    · rw [checkPulse_fst, k4]; exact decide_eq_false (by omega)

/-- Witness for C3 at the tag decoder's threshold of 500. -/
theorem checkPulse_tolerance_witness :
    (tagFresh.checkPulse 3100 3000).1 = true ∧
    (tagFresh.checkPulse (3000 + (tagFresh.errorThreshold - 1)) 3000).1 = true ∧
    (tagFresh.checkPulse (3000 + tagFresh.errorThreshold) 3000).1 = false := by
  have h := checkPulse_tolerance tagFresh 3100 3000
  have h2 := checkPulse_tolerance tagFresh 0 3000
  exact ⟨h.1.mpr (by decide), (h2.2.2.2 (by decide)).1, (h2.2.2.2 (by decide)).2.2.1⟩

/-! ### C2: the bit writer on a fresh decoder -/

/-- C2 (code evidence): `__init__` leaves the bit index at 0, so on a
freshly constructed decoder the very first `write_bit(1)` lands at bit
position 0 and immediately flushes the one-bit byte `[1]`; only after a
reset does the index sit at 7, where `write_bit(1)` sets bit 7 (value
128) with no byte completed. -/
theorem writeBit_fresh_decoder_starts_at_bit_zero :
    tagFresh.receivedBitIndex = 0 ∧
    (tagFresh.writeBit 1).receivedData = [1] ∧
    (tagFresh.writeBit 1).receivedBitIndex = 7 ∧
    ((tagFresh.reset 0).writeBit 1).receivedData = [] ∧
    ((tagFresh.reset 0).writeBit 1).receivedByte = 128 ∧
    ((tagFresh.reset 0).writeBit 1).receivedBitIndex = 6 := by
  decide

/-! ### C6: last error margin before any packet -/

/-- C6 (code evidence): `__init__` sets `_last_error_margin` to the
integer 0, and the `last_error_margin` property returns it unchanged, so
a freshly constructed decoder reports the numeric margin 0, never an
absent value. -/
theorem lastErrorMargin_fresh :
    ∀ threshold : Int, (InfraredDecoder.init threshold).lastErrorMargin = 0 :=
  fun _ => rfl

/-! ### C5: signal strength -/

/-- C5 counterexample: with threshold 500, a recorded margin equal to the
threshold yields strength 3/10, not 0; a margin of twice the threshold
yields the negative value -7/10, which is returned unclamped. -/
theorem lastSignalStrength_no_floor_counterexample :
    (tagFresh.reset 500).lastSignalStrength = 3 / 10 ∧ ((3 : ℚ) / 10 ≠ 0) ∧
    (tagFresh.reset 1000).lastSignalStrength = -7 / 10 ∧ ((-7 : ℚ) / 10 < 0) := by
  refine ⟨?_, by norm_num, ?_, by norm_num⟩ <;>
    norm_num [InfraredDecoder.lastSignalStrength, InfraredDecoder.reset,
      InfraredDecoder.resetBitWriter, tagFresh, InfraredDecoder.init, TAG_ERROR_MARGIN,
      min_def]

/-- C5 amended: for threshold T > 0, strength is 1.0 at margin 0 and
otherwise `min(1, 1.3 - m/T)` with no lower clamp: any positive margin of
at most 0.3·T gives full strength 1, margin exactly T gives 3/10, and
margins of at least 1.3·T give nonpositive values. -/
theorem lastSignalStrength_amended (st : InfraredDecoder)
    (hT : 0 < st.errorThreshold) :
    (st.lastErrorMargin = 0 → st.lastSignalStrength = 1) ∧
    (st.lastErrorMargin ≠ 0 →
      st.lastSignalStrength =
        min 1 (13 / 10 - (st.lastErrorMargin : ℚ) / (st.errorThreshold : ℚ))) ∧
    (0 < st.lastErrorMargin → 10 * st.lastErrorMargin ≤ 3 * st.errorThreshold →
      st.lastSignalStrength = 1) ∧
    (st.lastErrorMargin = st.errorThreshold → st.lastSignalStrength = 3 / 10) ∧
    (13 * st.errorThreshold ≤ 10 * st.lastErrorMargin → st.lastSignalStrength ≤ 0) := by
  have hT' : (0 : ℚ) < (st.errorThreshold : ℚ) := by exact_mod_cast hT
  refine ⟨?_, ?_, ?_, ?_, ?_⟩
  · intro h; simp [InfraredDecoder.lastSignalStrength, h]
  · intro h; simp [InfraredDecoder.lastSignalStrength, h]
  · intro h1 h2
    have hm : st.lastErrorMargin ≠ 0 := by omega
    have heq : st.lastSignalStrength =
        min 1 (13 / 10 - (st.lastErrorMargin : ℚ) / (st.errorThreshold : ℚ)) := by
      simp [InfraredDecoder.lastSignalStrength, hm]
    rw [heq, min_eq_left]
    have hq : (st.lastErrorMargin : ℚ) / (st.errorThreshold : ℚ) ≤ 3 / 10 := by
      rw [div_le_div_iff₀ hT' (by norm_num)]
      have hc : (10 : ℚ) * (st.lastErrorMargin : ℚ) ≤ 3 * (st.errorThreshold : ℚ) := by
        exact_mod_cast h2
      linarith
    linarith
  · intro h
    have hm : st.lastErrorMargin ≠ 0 := by omega
    have heq : st.lastSignalStrength =
        min 1 (13 / 10 - (st.lastErrorMargin : ℚ) / (st.errorThreshold : ℚ)) := by
      simp [InfraredDecoder.lastSignalStrength, hm]
    rw [heq, h, div_self hT'.ne']
    norm_num
  · intro h
    have hm : st.lastErrorMargin ≠ 0 := by omega
    have heq : st.lastSignalStrength =
        min 1 (13 / 10 - (st.lastErrorMargin : ℚ) / (st.errorThreshold : ℚ)) := by
      simp [InfraredDecoder.lastSignalStrength, hm]
    rw [heq]
    have hq : (13 : ℚ) / 10 ≤ (st.lastErrorMargin : ℚ) / (st.errorThreshold : ℚ) := by
      rw [div_le_div_iff₀ (by norm_num) hT']
      have hc : (13 : ℚ) * (st.errorThreshold : ℚ) ≤ (st.lastErrorMargin : ℚ) * 10 := by
        have : (13 : ℚ) * (st.errorThreshold : ℚ) ≤ 10 * (st.lastErrorMargin : ℚ) := by
          exact_mod_cast h
        linarith
      linarith
    calc min (1 : ℚ) (13 / 10 - (st.lastErrorMargin : ℚ) / (st.errorThreshold : ℚ))
        ≤ 13 / 10 - (st.lastErrorMargin : ℚ) / (st.errorThreshold : ℚ) := min_le_right _ _
      _ ≤ 0 := by linarith

/-- Witness for C5 amended, at threshold 500 with margins 150 and 500. -/
theorem lastSignalStrength_amended_witness :
    (tagFresh.reset 150).lastSignalStrength = 1 ∧
    (tagFresh.reset 500).lastSignalStrength = 3 / 10 := by
  have h1 := lastSignalStrength_amended (tagFresh.reset 150) (by decide)
  have h2 := lastSignalStrength_amended (tagFresh.reset 500) (by decide)
  exact ⟨h1.2.2.1 (by decide) (by decide), h2.2.2.2.1 (by decide)⟩

/-! ### C8: encoding range checks and bit packing -/

/-- C8: `encode_tag_data` rejects exactly the out-of-range inputs; for
in-range inputs it packs `team<<5 | (player-1)<<2 | (damage-1)` into a
single byte; `TagData(2, 5, 3)` encodes to `0b01010010`. -/
theorem encodeTagData_range_and_packing (t : TagData) :
    ((∃ msg, encodeTagData t = .error msg) ↔
      t.team < 0 ∨ 3 < t.team ∨ t.player < 1 ∨ 8 < t.player ∨
        t.damage < 1 ∨ 4 < t.damage) ∧
    (0 ≤ t.team → t.team ≤ 3 → 1 ≤ t.player → t.player ≤ 8 →
      1 ≤ t.damage → t.damage ≤ 4 →
      encodeTagData t =
        .ok [(t.team.toNat <<< 5) ||| ((t.player.toNat - 1) <<< 2) |||
             (t.damage.toNat - 1)]) ∧
    encodeTagData ⟨2, 5, 3⟩ = .ok [0b01010010] := by
  refine ⟨⟨?_, ?_⟩, ?_, by rfl⟩
  · rintro ⟨msg, hmsg⟩
    unfold encodeTagData at hmsg
    split_ifs at hmsg with h1 h2 h3
    · tauto
    · tauto
    · tauto
  · intro h
    unfold encodeTagData
    split_ifs with h1 h2 h3
    · exact ⟨_, rfl⟩
    · exact ⟨_, rfl⟩
    · exact ⟨_, rfl⟩
    · push_neg at h1 h2 h3
      exfalso; rcases h with h | h | h | h | h | h <;> omega
  · intro h1 h2 h3 h4 h5 h6
    obtain ⟨team, player, damage⟩ := t
    simp only at h1 h2 h3 h4 h5 h6 ⊢
    interval_cases team <;> interval_cases player <;> interval_cases damage <;> rfl

/-- Witness for C8: an out-of-range team is rejected; `TagData(2, 5, 3)`
packs as stated. -/
theorem encodeTagData_range_and_packing_witness :
    (∃ msg, encodeTagData ⟨4, 1, 1⟩ = .error msg) ∧
    encodeTagData ⟨2, 5, 3⟩ =
      .ok [((2 : Int).toNat <<< 5) ||| (((5 : Int).toNat - 1) <<< 2) |||
           ((3 : Int).toNat - 1)] :=
  ⟨(encodeTagData_range_and_packing ⟨4, 1, 1⟩).1.mpr (by decide),
   (encodeTagData_range_and_packing ⟨2, 5, 3⟩).2.1 (by decide) (by decide)
     (by decide) (by decide) (by decide) (by decide)⟩

/-! ### C9: tag data round trip -/

/-- C9: decoding the encoding of any in-range `TagData` returns the same
team, player and damage. -/
theorem decode_encode_tag_roundtrip (t : TagData)
    (h1 : 0 ≤ t.team) (h2 : t.team ≤ 3) (h3 : 1 ≤ t.player) (h4 : t.player ≤ 8)
    (h5 : 1 ≤ t.damage) (h6 : t.damage ≤ 4) :
    (encodeTagData t).bind decodeTagData = .ok t := by
  obtain ⟨team, player, damage⟩ := t
  simp only at h1 h2 h3 h4 h5 h6
  interval_cases team <;> interval_cases player <;> interval_cases damage <;> rfl

/-- Witness for C9 at `TagData(2, 5, 3)`. -/
theorem decode_encode_tag_roundtrip_witness :
    (encodeTagData ⟨2, 5, 3⟩).bind decodeTagData = .ok ⟨2, 5, 3⟩ :=
  decode_encode_tag_roundtrip ⟨2, 5, 3⟩ (by decide) (by decide) (by decide)
    (by decide) (by decide) (by decide)

/-! ### Lemmas about the bit writer and the tag decoder invariant -/

theorem or_lt_256 {x y : Nat} (hx : x < 256) (hy : y < 256) : x ||| y < 256 :=
  @Nat.bitwise_lt or x y 8 hx hy

theorem one_shiftLeft_lt_256 {k : Nat} (hk : k ≤ 7) : (1 <<< k) < 256 := by
  have h : (1 : Nat) <<< k ≤ 1 <<< 7 := by
    simp only [Nat.shiftLeft_eq, one_mul]
    exact Nat.pow_le_pow_right (by norm_num) hk
  omega

/-- `write_bit` with a positive bit index: sets the bit, decrements. -/
theorem writeBit_eq_pos (st : InfraredDecoder) (bit : Nat)
    (h : 0 < st.receivedBitIndex) :
    st.writeBit bit =
      { st with
        receivedByte :=
          if bit = 1 then st.receivedByte ||| (1 <<< st.receivedBitIndex.toNat)
          else st.receivedByte,
        receivedBitIndex := st.receivedBitIndex - 1 } := by
  unfold InfraredDecoder.writeBit
  dsimp only
  split_ifs with hb hneg hneg
  · exfalso; simp at hneg; omega
  · simp [hb]
  · exfalso; simp at hneg; omega
  · simp [hb]

/-- `write_bit` with bit index 0: sets bit 0 (if requested), flushes the
completed byte, and resets the bit writer. -/
theorem writeBit_eq_zero (st : InfraredDecoder) (bit : Nat)
    (h : st.receivedBitIndex = 0) :
    st.writeBit bit =
      { st with
        receivedData :=
          st.receivedData ++
            [if bit = 1 then st.receivedByte ||| 1 else st.receivedByte],
        receivedByte := 0,
        receivedBitIndex := 7 } := by
  unfold InfraredDecoder.writeBit InfraredDecoder.resetBitWriter
  dsimp only
  split_ifs with hb hneg hneg
  · simp [hb, h]
  · exfalso; simp at hneg; omega
  · simp [hb, h]
  · exfalso; simp at hneg; omega

theorem writeBit_one_pos (st : InfraredDecoder) (h : 0 < st.receivedBitIndex) :
    st.writeBit 1 =
      { st with
        receivedByte := st.receivedByte ||| (1 <<< st.receivedBitIndex.toNat),
        receivedBitIndex := st.receivedBitIndex - 1 } := by
  rw [writeBit_eq_pos st 1 h]; norm_num

theorem writeBit_zero_pos (st : InfraredDecoder) (h : 0 < st.receivedBitIndex) :
    st.writeBit 0 =
      { st with receivedBitIndex := st.receivedBitIndex - 1 } := by
  rw [writeBit_eq_pos st 0 h]; norm_num

theorem writeBit_one_flush (st : InfraredDecoder) (h : st.receivedBitIndex = 0) :
    st.writeBit 1 =
      { st with
        receivedData := st.receivedData ++ [st.receivedByte ||| 1],
        receivedByte := 0,
        receivedBitIndex := 7 } := by
  rw [writeBit_eq_zero st 1 h]; norm_num

theorem writeBit_zero_flush (st : InfraredDecoder) (h : st.receivedBitIndex = 0) :
    st.writeBit 0 =
      { st with
        receivedData := st.receivedData ++ [st.receivedByte],
        receivedByte := 0,
        receivedBitIndex := 7 } := by
  rw [writeBit_eq_zero st 0 h]; norm_num

theorem tagInv_reset (st : InfraredDecoder) (m : Int) : TagInv (st.reset m) := by
  unfold TagInv InfraredDecoder.reset InfraredDecoder.resetBitWriter
  dsimp only
  refine ⟨by norm_num, by norm_num, by norm_num, by simp, by norm_num, by norm_num,
    fun _ => Or.inl rfl, fun hc => absurd hc (by norm_num)⟩

theorem tagInv_init : TagInv tagFresh := by
  unfold TagInv tagFresh InfraredDecoder.init
  dsimp only
  refine ⟨by norm_num, by norm_num, by norm_num, by simp, by norm_num, by norm_num,
    fun _ => Or.inr rfl, fun hc => absurd hc (by norm_num)⟩

/-- `tagDecode` preserves the tag decoder invariant. -/
theorem tagInv_step (st : InfraredDecoder) (p : Int) (h : TagInv st) :
    TagInv (tagDecode st p).2 := by
  obtain ⟨hbyte, hidx0, hidx7, hdata, hst0, hst17, hlt3, hge3⟩ := h
  unfold tagDecode
  dsimp only
  by_cases h1 : st.decoderState < 3
  · rw [if_pos h1]
    by_cases h2 : (st.checkPulse p (TAG_PREAMBLE.getD st.decoderState.toNat 0)).1 = true
    · rw [if_pos h2]
      dsimp only
      refine ⟨?_, ?_, ?_, ?_, ?_, ?_, ?_, ?_⟩ <;>
        simp only [checkPulse_receivedByte, checkPulse_receivedBitIndex,
          checkPulse_receivedData, checkPulse_decoderState]
      · exact hbyte
      · exact hidx0
      · exact hidx7
      · exact hdata
      · omega
      · omega
      · intro h'; exact hlt3 h1
      · intro h'
        rcases hlt3 h1 with hi | hi
        · exact Or.inr (Or.inr (by omega))
        · exact Or.inr (Or.inl hi)
    · rw [if_neg h2]
      exact tagInv_reset _ _
  · rw [if_neg h1]
    by_cases h3 : st.decoderState < TAG_TOTAL_PULSES
    · rw [if_pos h3]
      unfold TAG_TOTAL_PULSES at h3
      by_cases h4 : (st.decoderState - 3) % 2 = 0
      · rw [if_pos h4]
        by_cases h5 : (st.checkPulse p TAG_MARK).1 = true
        · rw [if_neg (not_not_intro h5)]
          dsimp only
          refine ⟨?_, ?_, ?_, ?_, ?_, ?_, ?_, ?_⟩ <;>
            simp only [checkPulse_receivedByte, checkPulse_receivedBitIndex,
              checkPulse_receivedData, checkPulse_decoderState]
          · exact hbyte
          · exact hidx0
          · exact hidx7
          · exact hdata
          · omega
          · omega
          · intro h'; omega
          · intro h'
            rcases hge3 (by omega) with hd | hi | hi
            · exact Or.inl hd
            · exact Or.inr (Or.inl hi)
            · exact Or.inr (Or.inr (by omega))
        · rw [if_pos h5]
          exact tagInv_reset _ _
      · rw [if_neg h4]
        have hmod : (st.decoderState - 3) % 2 = 1 := by omega
        by_cases h6 : (st.checkPulse p TAG_SPACE_ONE).1 = true
        · rw [if_pos h6]
          dsimp only
          rcases (show st.receivedBitIndex = 0 ∨ 0 < st.receivedBitIndex by omega)
            with hz | hpos
          · rw [writeBit_one_flush _ (by simpa using hz)]
            dsimp only
            refine ⟨by norm_num, by norm_num, by norm_num, ?_, ?_, ?_, ?_, ?_⟩ <;>
              simp only [checkPulse_receivedByte, checkPulse_receivedData,
                checkPulse_decoderState]
            · intro b hb
              rcases List.mem_append.mp hb with hb | hb
              · exact hdata b hb
              · simp only [List.mem_singleton] at hb
                subst hb
                exact or_lt_256 hbyte (by norm_num)
            · omega
            · omega
            · intro h'; omega
            · intro h'; exact Or.inl (by simp)
          · rw [writeBit_one_pos _ (by simpa using hpos)]
            dsimp only
            refine ⟨?_, ?_, ?_, ?_, ?_, ?_, ?_, ?_⟩ <;>
              simp only [checkPulse_receivedByte, checkPulse_receivedBitIndex,
                checkPulse_receivedData, checkPulse_decoderState]
            · exact or_lt_256 hbyte (one_shiftLeft_lt_256 (by omega))
            · omega
            · omega
            · exact hdata
            · omega
            · omega
            · intro h'; omega
            · intro h'
              rcases hge3 (by omega) with hd | hi | hi
              · exact Or.inl hd
              · omega
              · exact Or.inr (Or.inr (by omega))
        · rw [if_neg h6]
          by_cases h7 :
            ((st.checkPulse p TAG_SPACE_ONE).2.checkPulse p TAG_SPACE_ZERO).1 = true
          · rw [if_pos h7]
            dsimp only
            rcases (show st.receivedBitIndex = 0 ∨ 0 < st.receivedBitIndex by omega)
              with hz | hpos
            · rw [writeBit_zero_flush _ (by simpa using hz)]
              dsimp only
              refine ⟨by norm_num, by norm_num, by norm_num, ?_, ?_, ?_, ?_, ?_⟩ <;>
                simp only [checkPulse_receivedByte, checkPulse_receivedData,
                  checkPulse_decoderState]
              · intro b hb
                rcases List.mem_append.mp hb with hb | hb
                · exact hdata b hb
                · simp only [List.mem_singleton] at hb
                  subst hb
                  exact hbyte
              · omega
              · omega
              · intro h'; omega
              · intro h'; exact Or.inl (by simp)
            · rw [writeBit_zero_pos _ (by simpa using hpos)]
              dsimp only
              refine ⟨?_, ?_, ?_, ?_, ?_, ?_, ?_, ?_⟩ <;>
                simp only [checkPulse_receivedByte, checkPulse_receivedBitIndex,
                  checkPulse_receivedData, checkPulse_decoderState]
              · exact hbyte
              · omega
              · omega
              · exact hdata
              · omega
              · omega
              · intro h'; omega
              · intro h'
                rcases hge3 (by omega) with hd | hi | hi
                · exact Or.inl hd
                · omega
                · exact Or.inr (Or.inr (by omega))
          · rw [if_neg h7]
            exact tagInv_reset _ _
    · rw [if_neg h3]
      by_cases h8 : st.decoderState = TAG_TOTAL_PULSES
      · rw [if_pos h8]
        exact tagInv_reset _ _
      · rw [if_neg h8]
        exact tagInv_reset _ _

theorem tagInv_feed (ps : List Int) (st : InfraredDecoder) (h : TagInv st) :
    TagInv (feedTag st ps) := by
  induction ps generalizing st with
  | nil => exact h
  | cons p ps ih => exact ih _ (tagInv_step st p h)

/-- Under the invariant, a flush of the bit writer leaves a nonempty byte
list whose head is a byte value. -/
theorem writeBit_headD_lt (st : InfraredDecoder) (bit : Nat)
    (hbyte : st.receivedByte < 256) (hdata : ∀ b ∈ st.receivedData, b < 256)
    (hidx0 : 0 ≤ st.receivedBitIndex)
    (hne : st.receivedData ≠ [] ∨ st.receivedBitIndex = 0) :
    (st.writeBit bit).receivedData.headD 0 < 256 := by
  rcases Decidable.em (st.receivedBitIndex = 0) with hz | hnz
  · rw [writeBit_eq_zero _ _ hz]
    dsimp only
    cases hd : st.receivedData with
    | nil =>
      simp only [hd, List.nil_append, List.headD_cons]
      split_ifs
      · exact or_lt_256 hbyte (by norm_num)
      · exact hbyte
    | cons a as =>
      simp only [hd, List.cons_append, List.headD_cons]
      exact hdata a (by simp [hd])
  · have hne' : st.receivedData ≠ [] := by tauto
    rw [writeBit_eq_pos _ _ (by omega)]
    dsimp only
    cases hd : st.receivedData with
    | nil => exact absurd hd hne'
    | cons a as =>
      simp only [hd, List.headD_cons]
      exact hdata a (by simp [hd])

/-! ### C10: shape of every decoded tag packet -/

/-- Helper for C10: under the invariant, whenever `tagDecode` returns a
packet it is a single byte not exceeding 0x7F. -/
theorem tagDecode_output (st : InfraredDecoder) (p : Int) (out : List Nat)
    (hinv : TagInv st) (hout : (tagDecode st p).1 = some out) :
    out.length = 1 ∧ ∀ b ∈ out, b ≤ 127 := by
  obtain ⟨hbyte, hidx0, hidx7, hdata, hst0, hst17, hlt3, hge3⟩ := hinv
  unfold tagDecode at hout
  dsimp only at hout
  split_ifs at hout with h1 h3 h8
  -- only the completion state returns a packet
  simp only [Option.some.injEq] at hout
  subst hout
  have hz : st.receivedData ≠ [] ∨ st.receivedBitIndex = 0 := by
    rcases hge3 (by unfold TAG_TOTAL_PULSES at h8; omega) with hd | hi | hi
    · exact Or.inl hd
    · exact Or.inr hi
    · exact Or.inr (by unfold TAG_TOTAL_PULSES at h8; omega)
  have hh := writeBit_headD_lt st 0 hbyte hdata hidx0 hz
  refine ⟨rfl, ?_⟩
  intro b hb
  simp only [List.mem_singleton] at hb
  subst hb
  rw [Nat.shiftRight_eq_div_pow]
  omega

/-- C10: for every pulse sequence fed to a fresh tag decoder, whenever
`decode` returns a packet, the packet is exactly one byte long and its
value is at most 0x7F (the assembled byte is shifted right by one). -/
theorem tag_decoded_packet_shape (ps : List Int) (p : Int) (out : List Nat)
    (hout : (tagDecode (feedTag tagFresh ps) p).1 = some out) :
    out.length = 1 ∧ ∀ b ∈ out, b ≤ 127 :=
  tagDecode_output _ p out (tagInv_feed ps tagFresh tagInv_init) hout

/-- Witness for C10: the fresh decoder fed one encoded packet plus a
trigger pulse emits a packet, and the shape facts hold for it. -/
theorem tag_decoded_packet_shape_witness :
    ([0] : List Nat).length = 1 ∧ ∀ b ∈ ([0] : List Nat), b ≤ 127 :=
  tag_decoded_packet_shape (tagEncode 0x52) 9999 [0] (by decide)

/-! ### C1: the full encode→decode pulse pipeline -/

/-- At the completion state the decoder ignores the pulse value. -/
theorem tagDecode_completion_pulse_irrelevant (st : InfraredDecoder)
    (h : st.decoderState = 17) (p q : Int) : tagDecode st p = tagDecode st q := by
  unfold tagDecode
  rw [h]
  norm_num [TAG_TOTAL_PULSES]

/-- C1 counterexample: feeding the 17 pulses of `encode(bytearray([0x40]))`
one at a time into a freshly constructed tag decoder never returns a
packet, and even one further pulse makes it return `[0x00]`, not the
original byte: the fresh decoder's bit index starts at 0, so the first
data bit is flushed alone as the only byte. -/
theorem tag_pipeline_fresh_counterexample :
    tagOutputs tagFresh (tagEncode 0x40) = List.replicate 17 none ∧
    (tagDecode (feedTag tagFresh (tagEncode 0x40)) 3000).1 = some [0x00] ∧
    (0x00 : Nat) ≠ 0x40 := by
  refine ⟨by decide, by decide, by decide⟩

/-- C1 amended: for every byte `b`, feeding the encoder's 17 pulses and
then one further pulse (of any duration) into a tag decoder on which
`reset` has been performed makes the final `decode` call return the
one-byte packet `[b % 128]` — the original byte whenever it is below
0x80. -/
theorem tag_pipeline_roundtrip_after_reset (b : Nat) (hb : b < 256) (p : Int) :
    (tagDecode (feedTag (tagFresh.reset 0) (tagEncode b)) p).1 = some [b % 128] := by
  have key : ∀ b' : Nat, b' < 256 →
      (feedTag (tagFresh.reset 0) (tagEncode b')).decoderState = 17 ∧
      (tagDecode (feedTag (tagFresh.reset 0) (tagEncode b')) 0).1 = some [b' % 128] := by
    decide
  rw [tagDecode_completion_pulse_irrelevant _ (key b hb).1 p 0]
  exact (key b hb).2

/-- Witness for C1 amended at byte 0x52. -/
theorem tag_pipeline_roundtrip_after_reset_witness :
    (tagDecode (feedTag (tagFresh.reset 0) (tagEncode 0x52)) 9999).1 =
      some [0x52 % 128] :=
  tag_pipeline_roundtrip_after_reset 0x52 (by decide) 9999

/-! ### C7: CRC handling on lead-out -/

/-- C7: in the data state, a pulse matching the lead-out duration makes
`MWDecoder.decode` (i) reset and return nothing when fewer than 2 bytes
were collected, and (ii) otherwise return the collected bytes minus the
last one exactly when that last byte equals the CRC-8 (generator 0x1D) of
the rest; on a CRC mismatch nothing is returned. -/
theorem mwDecode_leadout (st : InfraredDecoder) (p : Int)
    (hstate : st.decoderState = 2) (hthr : st.errorThreshold = 250)
    (hp : |p - IR_LEAD_OUT| < 250) :
    (st.receivedData.length < 2 →
      mwDecode st p = (none, ⟨250, 0, [], 7, 0, 0, 250⟩)) ∧
    (2 ≤ st.receivedData.length →
      ((mwDecode st p).1 = some st.receivedData.dropLast ↔
        st.receivedData.getLastD 0 = calculateCrc st.receivedData.dropLast) ∧
      (st.receivedData.getLastD 0 ≠ calculateCrc st.receivedData.dropLast →
        (mwDecode st p).1 = none)) := by
  have hp' : 4750 < p ∧ p < 5250 := by
    have h := abs_lt.mp hp
    unfold IR_LEAD_OUT at h
    omega
  have h1 : (st.checkPulse p IR_ONE).1 = false := by
    rw [checkPulse_fst, hthr]
    apply decide_eq_false
    intro hcon
    have h := abs_lt.mp hcon
    unfold IR_ONE at h
    omega
  have h0 : ((st.checkPulse p IR_ONE).2.checkPulse p IR_ZERO).1 = false := by
    rw [checkPulse_fst]
    simp only [checkPulse_errorThreshold]
    rw [hthr]
    apply decide_eq_false
    intro hcon
    have h := abs_lt.mp hcon
    unfold IR_ZERO at h
    omega
  have hL :
      (((st.checkPulse p IR_ONE).2.checkPulse p IR_ZERO).2.checkPulse p
        IR_LEAD_OUT).1 = true := by
    rw [checkPulse_fst]
    simp only [checkPulse_errorThreshold]
    rw [hthr]
    apply decide_eq_true
    rw [abs_lt]
    unfold IR_LEAD_OUT
    omega
  unfold mwDecode
  dsimp only
  rw [hstate]
  rw [if_neg (show ¬((2 : Int) = 0) by norm_num),
    if_neg (show ¬((2 : Int) = 1) by norm_num),
    if_pos (show (2 : Int) = 2 by rfl)]
  rw [if_neg (by simp [h1]), if_neg (by simp [h0]), if_pos hL]
  simp only [checkPulse_receivedData]
  constructor
  · intro hlen
    rw [if_pos hlen]
    unfold InfraredDecoder.reset InfraredDecoder.resetBitWriter IR_ERROR_MARGIN
    simp only [checkPulse_errorThreshold, hthr]
  · intro hlen
    rw [if_neg (show ¬st.receivedData.length < 2 by omega)]
    by_cases hcrc : st.receivedData.getLastD 0 = calculateCrc st.receivedData.dropLast
    · rw [if_pos hcrc]
      exact ⟨⟨fun _ => hcrc, fun _ => rfl⟩, fun hne => absurd hcrc hne⟩
    · rw [if_neg hcrc]
      refine ⟨⟨fun hsome => ?_, fun hc => absurd hc hcrc⟩, fun _ => rfl⟩
      simp at hsome

/-- Witness for C7: a two-byte packet `[0x52, crc]` with the correct CRC
is accepted at a 5000 µs lead-out and returns `[0x52]`. -/
theorem mwDecode_leadout_witness :
    (mwDecode ⟨250, 2, [0x52, calculateCrc [0x52]], 7, 0, 60, 0⟩ 5000).1 =
      some (([0x52, calculateCrc [0x52]] : List Nat).dropLast) :=
  ((mwDecode_leadout ⟨250, 2, [0x52, calculateCrc [0x52]], 7, 0, 60, 0⟩ 5000
      rfl rfl (by decide)).2 (by norm_num)).1.mpr (by decide)

/-! ### Lemmas about the multi-sensor receiver -/

theorem lookup_isSome_iff {β : Type} (l : List (String × β)) (a : String) :
    (l.lookup a).isSome ↔ a ∈ l.map Prod.fst := by
  induction l with
  | nil => simp [List.lookup]
  | cons x l ih =>
    obtain ⟨k, v⟩ := x
    simp only [List.lookup]
    by_cases hx : a = k
    · subst hx; simp
    · have hbeq : (a == k) = false := by simp [hx]
      simp [hbeq, hx, ih]

/-- The strict-minimum scan over a nonempty prefix: the result is the
first entry achieving the minimum margin. -/
theorem scanStep_go (l : List (String × Int)) (b : String × Int) :
    ∃ r pre post, l.foldl scanStep (some b) = some r ∧
      b :: l = pre ++ r :: post ∧ (∀ x ∈ pre, r.2 < x.2) ∧
      ∀ x ∈ b :: l, r.2 ≤ x.2 := by
  induction l generalizing b with
  | nil => exact ⟨b, [], [], rfl, rfl, by simp, by simp⟩
  | cons y l ih =>
    by_cases hy : y.2 < b.2
    · obtain ⟨r, pre, post, hfold, hdecomp, hpre, hall⟩ := ih y
      have hry : r.2 ≤ y.2 := hall y (by simp)
      refine ⟨r, b :: pre, post, ?_, ?_, ?_, ?_⟩
      · simpa [scanStep, hy] using hfold
      · simp [hdecomp]
      · rw [List.forall_mem_cons]
        exact ⟨by omega, hpre⟩
      · rw [List.forall_mem_cons]
        exact ⟨by omega, hall⟩
    · have hby : b.2 ≤ y.2 := by omega
      obtain ⟨r, pre, post, hfold, hdecomp, hpre, hall⟩ := ih b
      have hrb2 : r.2 ≤ b.2 := hall b (by simp)
      cases pre with
      | nil =>
        simp only [List.nil_append, List.cons.injEq] at hdecomp
        obtain ⟨hrb, hpost⟩ := hdecomp
        have hb2 : b.2 = r.2 := by rw [hrb]
        refine ⟨r, [], y :: post, ?_, ?_, by simp, ?_⟩
        · simpa [scanStep, hy] using hfold
        · simp [hrb, hpost]
        · rw [List.forall_mem_cons, List.forall_mem_cons]
          refine ⟨by omega, by omega, ?_⟩
          intro x hx
          exact hall x (by simp [hx])
      | cons a pre' =>
        simp only [List.cons_append, List.cons.injEq] at hdecomp
        obtain ⟨hab, hrest⟩ := hdecomp
        have hpa : r.2 < a.2 := hpre a (by simp)
        have hab2 : a.2 = b.2 := by rw [hab]
        have hpre' : ∀ x ∈ pre', r.2 < x.2 := fun x hx => hpre x (by simp [hx])
        refine ⟨r, b :: y :: pre', post, ?_, ?_, ?_, ?_⟩
        · simpa [scanStep, hy] using hfold
        · simp [hrest]
        · rw [List.forall_mem_cons, List.forall_mem_cons]
          exact ⟨by omega, by omega, hpre'⟩
        · rw [List.forall_mem_cons, List.forall_mem_cons]
          refine ⟨by omega, by omega, ?_⟩
          intro x hx
          exact hall x (by simp [hx])

/-- `scanBest` on a nonempty list returns the first entry with the
(strictly) minimal margin. -/
theorem scanBest_spec (l : List (String × Int)) (hne : l ≠ []) :
    ∃ r pre post, scanBest l = some r ∧
      l = pre ++ r :: post ∧ (∀ x ∈ pre, r.2 < x.2) ∧ ∀ x ∈ l, r.2 ≤ x.2 := by
  cases l with
  | nil => exact absurd rfl hne
  | cons b l =>
    have h := scanStep_go l b
    simpa [scanBest, scanStep] using h

theorem readRound_sensors_names {σ : Type} (sensors : List (String × List Int × σ)) :
    (readRound sensors).2.map Prod.fst = sensors.map Prod.fst := by
  induction sensors with
  | nil => rfl
  | cons s ss ih =>
    obtain ⟨n, q, d⟩ := s
    cases q <;> simp [readRound, ih]

theorem readRound_pulse_names {σ : Type} (sensors : List (String × List Int × σ)) :
    ∀ x ∈ (readRound sensors).1, x.1 ∈ sensors.map Prod.fst := by
  induction sensors with
  | nil => simp [readRound]
  | cons s ss ih =>
    obtain ⟨n, q, d⟩ := s
    cases q with
    | nil =>
      intro x hx
      simp only [readRound] at hx
      exact List.mem_cons_of_mem _ (ih x hx)
    | cons p q' =>
      intro x hx
      simp only [readRound] at hx
      rcases List.mem_cons.mp hx with rfl | hx
      · simp only [List.map_cons]
        exact List.mem_cons_self _ _
      · exact List.mem_cons_of_mem _ (ih x hx)

theorem updateSensor_names {σ : Type} (ops : DecoderOps σ)
    (sensors : List (String × List Int × σ)) (name : String) (pulse : Int) :
    (updateSensor ops sensors name pulse).2.map Prod.fst = sensors.map Prod.fst := by
  induction sensors with
  | nil => rfl
  | cons s ss ih =>
    obtain ⟨n, q, d⟩ := s
    by_cases h : n = name <;> simp [updateSensor, h, ih]

theorem decodeRound_names {σ : Type} (ops : DecoderOps σ)
    (ps : List (String × Int)) (sensors : List (String × List Int × σ)) :
    (decodeRound ops ps sensors).2.map Prod.fst = sensors.map Prod.fst := by
  induction ps generalizing sensors with
  | nil => rfl
  | cons x ps ih =>
    obtain ⟨name, pulse⟩ := x
    unfold decodeRound
    dsimp only
    cases hu : (updateSensor ops sensors name pulse).1 <;>
      simp only [hu] <;>
      rw [ih, updateSensor_names]

theorem decodeRound_data_names {σ : Type} (ops : DecoderOps σ)
    (ps : List (String × Int)) (sensors : List (String × List Int × σ)) :
    ∀ x ∈ (decodeRound ops ps sensors).1, x.1 ∈ ps.map Prod.fst := by
  induction ps generalizing sensors with
  | nil => simp [decodeRound]
  | cons y ps ih =>
    obtain ⟨name, pulse⟩ := y
    intro x hx
    unfold decodeRound at hx
    dsimp only at hx
    rcases hu : (updateSensor ops sensors name pulse).1 with _ | d <;>
      rw [hu] at hx
    · exact List.mem_cons_of_mem _ (ih _ x hx)
    · dsimp only at hx
      rcases List.mem_cons.mp hx with rfl | hx
      · simp
      · exact List.mem_cons_of_mem _ (ih _ x hx)

theorem snapshotMargins_keys {σ : Type} (ops : DecoderOps σ)
    (sensors : List (String × List Int × σ)) (datas : List (String × List Nat)) :
    (snapshotMargins ops sensors datas).map Prod.fst =
      (sensors.map Prod.fst).filter fun n => (datas.lookup n).isSome := by
  induction sensors with
  | nil => rfl
  | cons s ss ih =>
    unfold snapshotMargins at *
    simp only [List.filterMap_cons, List.map_cons, List.filter_cons]
    by_cases hs : (datas.lookup s.1).isSome
    · simp [hs, ih]
    · simp [hs, ih]

theorem snapshotMargins_keys_mem {σ : Type} (ops : DecoderOps σ)
    (sensors : List (String × List Int × σ)) (datas : List (String × List Nat))
    (n : String) :
    n ∈ (snapshotMargins ops sensors datas).map Prod.fst ↔
      (n ∈ datas.map Prod.fst ∧ n ∈ sensors.map Prod.fst) := by
  rw [snapshotMargins_keys, List.mem_filter, lookup_isSome_iff]
  tauto


/-! ### C4: multi-sensor arbitration -/

/-- C4: whenever the current round of `receive` completes one or more
packets, the snapshot of margins is recorded for exactly the completing
sensors, the winner is the first sensor with the strictly lowest margin,
every decoder is reset with its own last recorded margin, and the
winner's packet is returned (with `last_best_receiver` naming the
winner); concretely, two sensors completing in the same round with
margins 10 and 40 yield the margin-10 sensor's data and its name. -/
theorem multiReceiver_arbitration :
    (∀ (σ : Type) (ops : DecoderOps σ) (r : MultiReceiver σ)
        (pulses : List (String × Int))
        (sensors1 sensors2 : List (String × List Int × σ))
        (datas : List (String × List Nat)),
        readRound r.sensors = (pulses, sensors1) →
        decodeRound ops pulses sensors1 = (datas, sensors2) →
        datas ≠ [] →
        ∃ w mw pre post,
          scanBest (snapshotMargins ops sensors2 datas) = some (w, mw) ∧
          snapshotMargins ops sensors2 datas = pre ++ (w, mw) :: post ∧
          (∀ x ∈ pre, mw < x.2) ∧
          (∀ x ∈ snapshotMargins ops sensors2 datas, mw ≤ x.2) ∧
          (∀ n, n ∈ (snapshotMargins ops sensors2 datas).map Prod.fst ↔
            n ∈ datas.map Prod.fst) ∧
          multiReceive ops r =
            (datas.lookup w,
             ⟨resetAllDecoders ops sensors2, snapshotMargins ops sensors2 datas,
              snapshotStrengths ops sensors2 datas⟩) ∧
          lastBestReceiver (multiReceive ops r).2 = some w) ∧
    ((multiReceive tagOps demoReceiver).1 = some [0x00] ∧
     (multiReceive tagOps (multiReceive tagOps demoReceiver).2).1 = some [0x52] ∧
     (multiReceive tagOps (multiReceive tagOps demoReceiver).2).2.lastErrorMargins =
       [("A", 10), ("B", 40)] ∧
     lastBestReceiver (multiReceive tagOps (multiReceive tagOps demoReceiver).2).2 =
       some "A") := by
  constructor
  · intro s ops r pulses sensors1 sensors2 datas hread hdec hne
    have hd1 : (decodeRound ops pulses sensors1).1 = datas := by rw [hdec]
    have hr1 : (readRound r.sensors).1 = pulses := by rw [hread]
    have hnames : sensors2.map Prod.fst = r.sensors.map Prod.fst := by
      have e1 : (decodeRound ops pulses sensors1).2 = sensors2 := by rw [hdec]
      have e2 : (readRound r.sensors).2 = sensors1 := by rw [hread]
      rw [← e1, decodeRound_names, ← e2, readRound_sensors_names]
    have hsub : ∀ n ∈ datas.map Prod.fst, n ∈ sensors2.map Prod.fst := by
      intro n hn
      obtain ⟨x, hx, rfl⟩ := List.mem_map.mp hn
      have h1 := decodeRound_data_names ops pulses sensors1 x (by rw [hd1]; exact hx)
      obtain ⟨y, hy, hxy⟩ := List.mem_map.mp h1
      have h2 := readRound_pulse_names r.sensors y (by rw [hr1]; exact hy)
      rw [hnames, ← hxy]
      exact h2
    have hkeys : ∀ n, n ∈ (snapshotMargins ops sensors2 datas).map Prod.fst ↔
        n ∈ datas.map Prod.fst := by
      intro n
      rw [snapshotMargins_keys_mem]
      exact ⟨fun h => h.1, fun h => ⟨h, hsub n h⟩⟩
    have hsnapne : snapshotMargins ops sensors2 datas ≠ [] := by
      obtain ⟨d0, hd0⟩ := List.exists_mem_of_ne_nil datas hne
      have hd0k : d0.1 ∈ datas.map Prod.fst := List.mem_map.mpr ⟨d0, hd0, rfl⟩
      have hmem := (hkeys d0.1).mpr hd0k
      intro he
      rw [he] at hmem
      simp at hmem
    obtain ⟨⟨w, mw⟩, pre, post, hscan, hdecomp, hpre, hall⟩ :=
      scanBest_spec _ hsnapne
    have hpulses : pulses.isEmpty = false := by
      cases hp : pulses with
      | nil =>
        rw [hp] at hdec
        have h := congrArg Prod.fst hdec
        simp [decodeRound] at h
        exact absurd h hne
      | cons a l => rfl
    have hdatas : datas.isEmpty = false := by
      cases hd : datas with
      | nil => exact absurd hd hne
      | cons a l => rfl
    have hrecv : multiReceive ops r =
        (datas.lookup w,
         ⟨resetAllDecoders ops sensors2, snapshotMargins ops sensors2 datas,
          snapshotStrengths ops sensors2 datas⟩) := by
      unfold multiReceive
      rw [multiReceiveAux]
      dsimp only
      rw [hread]
      dsimp only
      rw [if_neg (by simp [hpulses])]
      rw [hdec]
      dsimp only
      rw [if_neg (by simp [hdatas]), hscan]
    refine ⟨w, mw, pre, post, hscan, hdecomp, hpre, hall, hkeys, hrecv, ?_⟩
    rw [hrecv]
    unfold lastBestReceiver
    dsimp only
    rw [hscan]
    rfl
  · exact ⟨by decide, by decide, by decide, by decide⟩

/-- Witness for C4: the general arbitration theorem instantiated at the
two-sensor receiver whose round completes immediately with margins 10
and 40. -/
theorem multiReceiver_arbitration_witness :
    ∃ w mw pre post,
      scanBest (snapshotMargins tagOps
        (decodeRound tagOps (readRound demoPoised.sensors).1
          (readRound demoPoised.sensors).2).2
        (decodeRound tagOps (readRound demoPoised.sensors).1
          (readRound demoPoised.sensors).2).1) = some (w, mw) ∧
      snapshotMargins tagOps
        (decodeRound tagOps (readRound demoPoised.sensors).1
          (readRound demoPoised.sensors).2).2
        (decodeRound tagOps (readRound demoPoised.sensors).1
          (readRound demoPoised.sensors).2).1 = pre ++ (w, mw) :: post ∧
      (∀ x ∈ pre, mw < x.2) ∧
      (∀ x ∈ snapshotMargins tagOps
        (decodeRound tagOps (readRound demoPoised.sensors).1
          (readRound demoPoised.sensors).2).2
        (decodeRound tagOps (readRound demoPoised.sensors).1
          (readRound demoPoised.sensors).2).1, mw ≤ x.2) ∧
      (∀ n, n ∈ (snapshotMargins tagOps
        (decodeRound tagOps (readRound demoPoised.sensors).1
          (readRound demoPoised.sensors).2).2
        (decodeRound tagOps (readRound demoPoised.sensors).1
          (readRound demoPoised.sensors).2).1).map Prod.fst ↔
        n ∈ ((decodeRound tagOps (readRound demoPoised.sensors).1
          (readRound demoPoised.sensors).2).1).map Prod.fst) ∧
      multiReceive tagOps demoPoised =
        (((decodeRound tagOps (readRound demoPoised.sensors).1
            (readRound demoPoised.sensors).2).1).lookup w,
         ⟨resetAllDecoders tagOps
            (decodeRound tagOps (readRound demoPoised.sensors).1
              (readRound demoPoised.sensors).2).2,
          snapshotMargins tagOps
            (decodeRound tagOps (readRound demoPoised.sensors).1
              (readRound demoPoised.sensors).2).2
            (decodeRound tagOps (readRound demoPoised.sensors).1
              (readRound demoPoised.sensors).2).1,
          snapshotStrengths tagOps
            (decodeRound tagOps (readRound demoPoised.sensors).1
              (readRound demoPoised.sensors).2).2
            (decodeRound tagOps (readRound demoPoised.sensors).1
              (readRound demoPoised.sensors).2).1⟩) ∧
      lastBestReceiver (multiReceive tagOps demoPoised).2 = some w :=
  multiReceiver_arbitration.1 InfraredDecoder tagOps demoPoised _ _ _ _
    rfl rfl (by decide)

end Infrared